import Mathlib

/-!
Shallow embedding of the `lp_format` serializer and the Gurobi solver
adapter of the `rust-lp-modeler` repository (files
`src/format/lp_format.rs` and `src/solvers/gurobi.rs`), together with
proofs about the embedded definitions.

Rust `f32` values are modelled as `Rat`; stateful writers (`std::fmt::Write`)
are modelled by returning the written `String`; the `HashMap` of solution
values is modelled as an association list with insert-overwrite semantics;
fallible operations return `Except String`.
-/

namespace RustLp

/-! ## String helpers modelling Rust std behaviour

All helpers are written with structural recursion over `List Char` so that
closed evaluations reduce in the kernel. -/

/-- Decimal digit character for `n % 10` (models the digit emission of
Rust's integer `Display`). -/
def digitChar10 (n : Nat) : Char :=
  match n % 10 with
  | 0 => '0' | 1 => '1' | 2 => '2' | 3 => '3' | 4 => '4'
  | 5 => '5' | 6 => '6' | 7 => '7' | 8 => '8' | _ => '9'

/-- Fuel-driven most-significant-first decimal digit list of a natural
number. The fuel `n + 1` always suffices. -/
def natDigitsAux : Nat → Nat → List Char
  | 0, _ => []
  | fuel + 1, n =>
    if n < 10 then [digitChar10 n]
    else natDigitsAux fuel (n / 10) ++ [digitChar10 n]

/-- Decimal digits of a natural number, most significant first. -/
def natDigits (n : Nat) : List Char := natDigitsAux (n + 1) n

/-- Models Rust's `Display` for unsigned integers. -/
def natRepr (n : Nat) : String := String.mk (natDigits n)

/-- Models Rust's `Display` for signed integers. -/
def intRepr (i : Int) : String :=
  if i < 0 then "-" ++ natRepr i.natAbs else natRepr i.natAbs

/-- Left-pad a digit list with `'0'` up to length `n`. -/
def padLeft (l : List Char) (n : Nat) : List Char :=
  if l.length < n then List.replicate (n - l.length) '0' ++ l else l

/-- Digit list of `|q| * 10 ^ e`, padded so that a decimal point can be
inserted `e` digits from the right with at least one integral digit. -/
def fracDigits (q : Rat) (e : Nat) : List Char :=
  padLeft (natDigits (q.num.natAbs * 10 ^ e / q.den)) (e + 1)

/-- Decimal rendering of a non-integral value scaled by `10 ^ e`. -/
def fmtFloatFrac (q : Rat) (e : Nat) : String :=
  (if q.num < 0 then "-" else "") ++
    String.mk ((fracDigits q e).take ((fracDigits q e).length - e)) ++ "." ++
    String.mk ((fracDigits q e).drop ((fracDigits q e).length - e))

/-- Models Rust's `Display`/`to_string` for an `f32` value represented as a
rational: integral values print without a fractional part (`2.0` prints as
`"2"`), and terminating decimal values print with a decimal point. Values
whose denominator divides no power of ten (impossible for actual binary
floats) fall back to a fraction rendering. -/
def fmtFloat (q : Rat) : String :=
  match (List.range 61).find? (fun k => decide (q.den ∣ 10 ^ k)) with
  | some 0 => intRepr q.num
  | some (k + 1) => fmtFloatFrac q (k + 1)
  | none => intRepr q.num ++ "/" ++ natRepr q.den

/-- Does `s` start with the pattern `pat`? (List-level helper for
`containsStr`.) -/
def strStartsWith : List Char → List Char → Bool
  | [], _ => true
  | _ :: _, [] => false
  | p :: ps, c :: cs => p = c && strStartsWith ps cs

/-- Does the pattern occur contiguously anywhere in the haystack? -/
def strContainsAux (pat : List Char) : List Char → Bool
  | [] => strStartsWith pat []
  | c :: cs => strStartsWith pat (c :: cs) || strContainsAux pat cs

/-- Models Rust's `str::contains` with a string pattern. -/
def containsStr (s pat : String) : Bool := strContainsAux pat.data s.data

/-- Models Rust's `str::split_whitespace`: maximal runs of
non-whitespace characters; empty tokens never occur. -/
def splitWSAux : List Char → List Char → List (List Char)
  | [], cur => if cur.isEmpty then [] else [cur.reverse]
  | c :: t, cur =>
    if c.isWhitespace then
      if cur.isEmpty then splitWSAux t [] else cur.reverse :: splitWSAux t []
    else splitWSAux t (c :: cur)

/-- Models Rust's `str::split_whitespace`. -/
def splitWS (l : List Char) : List (List Char) := splitWSAux l []

/-- Models Rust's `str::split` on a one-character separator: the result
is never empty and keeps empty pieces (`"".split(" ")` yields `[""]`). -/
def splitOnCharAux (sep : Char) : List Char → List Char → List (List Char)
  | [], cur => [cur.reverse]
  | c :: t, cur =>
    if c = sep then cur.reverse :: splitOnCharAux sep t []
    else splitOnCharAux sep t (c :: cur)

/-- Models Rust's `str::split` on a single-character separator. -/
def splitOnChar (sep : Char) (l : List Char) : List (List Char) :=
  splitOnCharAux sep l []

/-- Models `BufRead::lines`: pieces separated by `'\n'`, with the line
terminator removed, a `'\r'` preceding a `'\n'` also removed, and no
final empty piece for input ending in `'\n'`. The accumulator holds the
current line reversed. -/
def rustLinesAux : List Char → List Char → List String
  | [], cur => if cur.isEmpty then [] else [String.mk cur.reverse]
  | '\n' :: t, cur =>
    String.mk (match cur with | '\r' :: cs => cs.reverse | _ => cur.reverse) ::
      rustLinesAux t []
  | c :: t, cur => rustLinesAux t (c :: cur)

/-- Models `BufRead::lines` on the remaining input. -/
def rustLines (l : List Char) : List String := rustLinesAux l []

/-- Models the single `read_line` call that consumes the header: returns
`(buffer, rest)` where `buffer` is everything up to and including the
first `'\n'` (or the whole input when it has no newline). -/
def headerSplit : List Char → List Char × List Char
  | [] => ([], [])
  | '\n' :: t => (['\n'], t)
  | c :: t =>
    let p := headerSplit t
    (c :: p.1, p.2)

/-- Leading sign of a numeric literal: `true` means negative. -/
def parseSignChars : List Char → Bool × List Char
  | '+' :: t => (false, t)
  | '-' :: t => (true, t)
  | l => (false, l)

/-- Value of a most-significant-first digit list. -/
def digitsVal (l : List Char) : Nat :=
  l.foldl (fun a c => a * 10 + (c.toNat - 48)) 0

/-- Models `str::parse::<f32>` on the finite-decimal grammar
`[+-]? digits? ('.' digits?)? ([eE] [+-]? digits)?` (at least one digit in
the mantissa, all input consumed). The special spellings `inf`/`nan`
accepted by Rust are outside the rational model and are not used by any
claim. The parsed value is exact rather than rounded to binary. -/
def parseF32 (s : String) : Option Rat :=
  let p := parseSignChars s.data
  let neg := p.1
  let cs := p.2
  let ip := cs.takeWhile Char.isDigit
  let r1 := cs.dropWhile Char.isDigit
  let fp := match r1 with
    | '.' :: t => t.takeWhile Char.isDigit
    | _ => []
  let r2 := match r1 with
    | '.' :: t => t.dropWhile Char.isDigit
    | _ => r1
  if ip.isEmpty && fp.isEmpty then none
  else
    let mantAbs : Nat := digitsVal ip * 10 ^ fp.length + digitsVal fp
    let mantNum : Int := if neg then -(mantAbs : Int) else (mantAbs : Int)
    let mantDen : Nat := 10 ^ fp.length
    match r2 with
    | [] => some (mkRat mantNum mantDen)
    | 'e' :: t | 'E' :: t =>
      let ep := parseSignChars t
      let ed := ep.2.takeWhile Char.isDigit
      let r3 := ep.2.dropWhile Char.isDigit
      if ed.isEmpty || !r3.isEmpty then none
      else if ep.1 then some (mkRat mantNum (mantDen * 10 ^ digitsVal ed))
      else some (mkRat (mantNum * ((10 : Int) ^ digitsVal ed)) mantDen)
    | _ => none

/-- Insert with overwrite, modelling `HashMap::insert` observed through an
association list kept in first-insertion order. -/
def insertAssoc (m : List (String × Rat)) (k : String) (v : Rat) :
    List (String × Rat) :=
  if m.any (fun p => p.1 == k) then
    m.map (fun p => if p.1 == k then (k, v) else p)
  else m ++ [(k, v)]

/-- Lookup in the association-list model of the `HashMap`. -/
def lookupAssoc : List (String × Rat) → String → Option Rat
  | [], _ => none
  | p :: t, k => if p.1 == k then some p.2 else lookupAssoc t k

/-- Right-fold string concatenation, used to state what the imperative
writer loops produce. -/
def strJoin : List String → String
  | [] => ""
  | s :: t => s ++ strJoin t

/-! ## Data model (`dsl` module of the repository)

The `dsl` module itself is not among the given source files; the variant
and field structure below is reconstructed from the exhaustive pattern
matches in `src/format/lp_format.rs` and from the spec's data model
(§3): Binary variables carry a name; Integer and Continuous variables
carry a name and optional bounds. -/

/-- Binary decision variable (`LpBinary`). -/
structure LpBinary where
  name : String
deriving DecidableEq

/-- Integer decision variable (`LpInteger`). -/
structure LpInteger where
  name : String
  lower_bound : Option Rat
  upper_bound : Option Rat
deriving DecidableEq

/-- Continuous decision variable (`LpContinuous`). -/
structure LpContinuous where
  name : String
  lower_bound : Option Rat
  upper_bound : Option Rat
deriving DecidableEq

/-- Comparison operator of a constraint (`dsl::Constraint`). -/
inductive Constraint where
  | GreaterOrEqual
  | LessOrEqual
  | Equal
deriving DecidableEq

/-- Expression tree (`dsl::LpExpression`). `EmptyExpr` is the variant the
formatter's wildcard arm renders as the `"EmptyExpr!!"` sentinel
(spec §4.2: "Any other/empty expression node"). -/
inductive LpExpression where
  | LitVal (v : Rat)
  | AddExpr (e1 e2 : LpExpression)
  | SubExpr (e1 e2 : LpExpression)
  | MulExpr (e1 e2 : LpExpression)
  | ConsBin (v : LpBinary)
  | ConsInt (v : LpInteger)
  | ConsCont (v : LpContinuous)
  | EmptyExpr
deriving DecidableEq

/-- Constraint triple (`dsl::LpConstraint`); the Rust type is a tuple
struct whose components `self.0`, `self.1`, `self.2` are named
`lhs`, `op`, `rhs` here. -/
structure LpConstraint where
  lhs : LpExpression
  op : Constraint
  rhs : LpExpression
deriving DecidableEq

/-- Objective direction (`dsl::LpObjective`). -/
inductive LpObjective where
  | Maximize
  | Minimize
deriving DecidableEq

/-- Problem container (`dsl::LpProblem`): name, unique identifier used to
derive temp filenames, objective direction, optional objective
expression, and the ordered constraint list. -/
structure LpProblem where
  name : String
  unique_name : String
  objective_type : LpObjective
  obj_expr : Option LpExpression
  constraints : List LpConstraint
deriving DecidableEq

/-- Walk of one expression collecting `(name, variable-node)` pairs in
first-seen order. Part of the spec-modelled `LpProblem::variables`. -/
def exprVars : LpExpression → List (String × LpExpression)
  | .LitVal _ => []
  | .EmptyExpr => []
  | .AddExpr a b | .SubExpr a b | .MulExpr a b => exprVars a ++ exprVars b
  | .ConsBin v => [(v.name, .ConsBin v)]
  | .ConsInt v => [(v.name, .ConsInt v)]
  | .ConsCont v => [(v.name, .ConsCont v)]

/-- First-seen deduplication by variable name. -/
def dedupVars : List (String × LpExpression) → List String → List (String × LpExpression)
  | [], _ => []
  | p :: t, seen =>
    if seen.contains p.1 then dedupVars t seen
    else p :: dedupVars t (p.1 :: seen)

/-- Modelled from the spec: `LpProblem::variables` lives in the `dsl`
module, which is not among the given sources. Spec §3: the problem
"derives its variable set by walking all expressions in objective and
constraints; iteration order over variables must be deterministic
(first-seen order)"; the formatter consumes it as `(name, node)` pairs. -/
def LpProblem.variables (p : LpProblem) : List (String × LpExpression) :=
  dedupVars
    ((match p.obj_expr with
      | some e => exprVars e
      | none => []) ++
      p.constraints.foldr (fun c acc => exprVars c.lhs ++ exprVars c.rhs ++ acc) [])
    []

/-! ## Format serializer (`src/format/lp_format.rs`) -/

/-- `"("` when the parenthesized mode is active (`str_left_mult`). -/
def parenL (with_parenthesis : Bool) : String := if with_parenthesis then "(" else ""

/-- `")"` when the parenthesized mode is active (`str_right_mult`). -/
def parenR (with_parenthesis : Bool) : String := if with_parenthesis then ")" else ""

/-- Multiplication separator (`str_op_mult`): explicit `" * "` in
parenthesized mode, a single space otherwise. -/
def opMul (with_parenthesis : Bool) : String := if with_parenthesis then " * " else " "

/-- The free function `format` of `lp_format.rs` (lines 147–209): renders
one expression, writes modelled as string concatenation in emission
order. The `MulExpr` arm special-cases a left literal `1.0` (coefficient
elided) and `-1.0` (unary minus), and every `MulExpr` arm emits a
trailing space after the right operand. -/
def format : LpExpression → Bool → String
  | .LitVal n, _ => fmtFloat n
  | .AddExpr e1 e2, p =>
    parenL p ++ format e1 p ++ " + " ++ format e2 p ++ parenR p
  | .SubExpr e1 e2, p =>
    parenL p ++ format e1 p ++ " - " ++ format e2 p ++ parenR p
  | .MulExpr e1 e2, p =>
    match e1 with
    | .LitVal v =>
      if v = 1 then parenL p ++ " " ++ format e2 p ++ parenR p ++ " "
      else if v = -1 then parenL p ++ "-" ++ format e2 p ++ parenR p ++ " "
      else parenL p ++ format e1 p ++ opMul p ++ format e2 p ++ parenR p ++ " "
    | _ => parenL p ++ format e1 p ++ opMul p ++ format e2 p ++ parenR p ++ " "
  | .ConsBin v, _ => v.name
  | .ConsInt v, _ => v.name
  | .ConsCont v, _ => v.name
  | .EmptyExpr, _ => "EmptyExpr!!"

/-- `impl LpFileFormat for LpExpression`: the public renderer always
invokes `format` with `with_parenthesis = false`. -/
def LpExpression.to_lp_file_format (e : LpExpression) : String := format e false

/-- `impl LpFileFormat for LpConstraint` (lines 211–221). -/
def LpConstraint.to_lp_file_format (c : LpConstraint) : String :=
  format c.lhs false ++
    (match c.op with
     | .GreaterOrEqual => " >= "
     | .LessOrEqual => " <= "
     | .Equal => " = ") ++
    format c.rhs false

/-- `format_objective_lp_file_block` (lines 48–62): nothing at all is
written when there is no objective expression. -/
def format_objective_lp_file_block (prob : LpProblem) : String :=
  let obj_type := match prob.objective_type with
    | .Maximize => "Maximize\n  "
    | .Minimize => "Minimize\n  "
  match prob.obj_expr with
  | some expr => obj_type ++ "obj: " ++ LpExpression.to_lp_file_format expr
  | none => ""

/-- The `while let` loop of `format_constraints_lp_file_block`
(lines 64–75): `index` starts at 1 and increments per constraint. -/
def formatConstraintsAux : List LpConstraint → Nat → String
  | [], _ => ""
  | c :: t, index =>
    "  c" ++ natRepr index ++ ": " ++ LpConstraint.to_lp_file_format c ++ "\n" ++
      formatConstraintsAux t (index + 1)

/-- `format_constraints_lp_file_block` (lines 64–75). -/
def format_constraints_lp_file_block (prob : LpProblem) : String :=
  formatConstraintsAux prob.constraints 1

/-- Body of the bounds loop shared by the `ConsInt` and `ConsCont` arms
(lines 81–107); `is_cont` records which arm rebinding the final inner
match on `v` observes. -/
def boundEmit (name : String) (lower_bound upper_bound : Option Rat)
    (is_cont : Bool) : String :=
  match lower_bound with
  | some l =>
    "  " ++ fmtFloat l ++ " <= " ++ name ++
      (match upper_bound with
       | some u => " <= " ++ fmtFloat u
       | none => "") ++ "\n"
  | none =>
    match upper_bound with
    | some u => "  " ++ name ++ " <= " ++ fmtFloat u ++ "\n"
    | none => if is_cont then "  " ++ name ++ " free\n" else ""

/-- One iteration of the `format_bounds_lp_file_block` loop: only
`ConsInt` and `ConsCont` nodes emit anything. -/
def boundLine : LpExpression → String
  | .ConsInt v => boundEmit v.name v.lower_bound v.upper_bound false
  | .ConsCont v => boundEmit v.name v.lower_bound v.upper_bound true
  | _ => ""

/-- The `for` loop of `format_bounds_lp_file_block`. -/
def boundsAux : List (String × LpExpression) → String
  | [] => ""
  | p :: t => boundLine p.2 ++ boundsAux t

/-- `format_bounds_lp_file_block` (lines 77–112). -/
def format_bounds_lp_file_block (prob : LpProblem) : String :=
  boundsAux prob.variables

/-- The `for` loop of `format_integers_lp_file_block` (lines 114–125). -/
def integersAux : List (String × LpExpression) → String
  | [] => ""
  | p :: t =>
    (match p.2 with
     | .ConsInt v => v.name ++ " "
     | _ => "") ++ integersAux t

/-- `format_integers_lp_file_block` (lines 114–125). -/
def format_integers_lp_file_block (prob : LpProblem) : String :=
  integersAux prob.variables

/-- The `for` loop of `format_binaries_lp_file_block` (lines 127–138). -/
def binariesAux : List (String × LpExpression) → String
  | [] => ""
  | p :: t =>
    (match p.2 with
     | .ConsBin v => v.name ++ " "
     | _ => "") ++ binariesAux t

/-- `format_binaries_lp_file_block` (lines 127–138). -/
def format_binaries_lp_file_block (prob : LpProblem) : String :=
  binariesAux prob.variables

/-- `impl LpFileFormat for LpProblem` (lines 25–46): every section header
is emitted even when its body is empty. -/
def LpProblem.to_lp_file_format (prob : LpProblem) : String :=
  "\\ " ++ prob.name ++ "\n\n" ++
    format_objective_lp_file_block prob ++
    "\n\nSubject To\n" ++ format_constraints_lp_file_block prob ++
    "\nBounds\n" ++ format_bounds_lp_file_block prob ++
    "\nGenerals\n  " ++ format_integers_lp_file_block prob ++
    "\nBinary\n  " ++ format_binaries_lp_file_block prob ++
    "\nEnd"

/-! ## Solver adapter (`src/solvers/gurobi.rs`) -/

/-- Solve status (`solvers::Status`; the spec's status enum
{Optimal, SubOptimal, Infeasible}). -/
inductive Status where
  | Optimal
  | SubOptimal
  | Infeasible
deriving DecidableEq

/-- Parsed solution (`solvers::Solution`): status plus the name→value
mapping. The optional back-reference to the problem carries no behaviour
observed by the claims and is omitted. -/
structure Solution where
  status : Status
  results : List (String × Rat)
deriving DecidableEq

/-- Captured outcome of the external solver process
(`std::process::Output` together with its `ExitStatus`):
`status_success` is `ExitStatus::success()` and `status_display` its
`Display` rendering. -/
structure ProcOutput where
  status_success : Bool
  status_display : String
  stdout : String
  stderr : String
deriving DecidableEq

/-- The body loop of `GurobiSolver::read_specific_solution`
(lines 64–83): lines whose first character is `'#'` are skipped; other
lines must split into exactly two whitespace-separated tokens whose
second parses as `f32`; the first failure aborts the whole parse.
`"invalid float literal"` is the `Display` of Rust's
`ParseFloatError`. -/
def parseLines : List String → List (String × Rat) →
    Except String (List (String × Rat))
  | [], acc => .ok acc
  | l :: ls, acc =>
    if l.data.head? = some '#' then parseLines ls acc
    else
      match splitWS l.data with
      | [name, val] =>
        match parseF32 (String.mk val) with
        | some n => parseLines ls (insertAssoc acc (String.mk name) n)
        | none => .error "invalid float literal"
      | _ => .error "Incorrect solution format"

/-- `GurobiSolver::read_specific_solution` (lines 57–93): one header line
is read and checked with `buffer.split(" ").next()`, the remaining lines
are parsed by the loop, and success always carries `Status::Optimal`. -/
def read_specific_solution (input : String) : Except String Solution :=
  let p := headerSplit input.data
  if ((splitOnChar ' ' p.1).head?).isSome then
    match parseLines (rustLines p.2) [] with
    | .ok m => .ok { status := .Optimal, results := m }
    | .error e => .error e
  else .error "Incorrect solution format"

/-- `GurobiSolver::process_output` (lines 36–53). The first component is
the returned `Result`; the second lists the `(path, content)` side-files
written, in write order (`<unique_name>.stderr` then
`<unique_name>.stdout`, only on non-zero exit). `solFileContent` stands
for the contents of the adapter's temporary solution file read by
`read_solution`. -/
def process_output (problem : LpProblem) (r : ProcOutput)
    (solFileContent : String) :
    Except String Solution × List (String × String) :=
  let status :=
    if containsStr r.stdout "Optimal objective" then Status.Optimal
    else if containsStr r.stdout "infesible" then Status.Infeasible
    else Status.SubOptimal
  if r.status_success then
    (match read_specific_solution solFileContent with
     | .ok solution => .ok { solution with status := status }
     | .error e => .error e, [])
  else
    (.error r.status_display,
     [(problem.unique_name ++ ".stderr", r.stderr),
      (problem.unique_name ++ ".stdout", r.stdout)])

/-! ## Spec-side definitions

These definitions transcribe the wording of the spec's claims; the
theorems below compare them with the serializer definitions translated
from the source. -/

/-- Comparison-operator tokens as the spec lists them (`>=`, `<=`, `=`). -/
def opTokenSpec : Constraint → String
  | .GreaterOrEqual => ">="
  | .LessOrEqual => "<="
  | .Equal => "="

/-- Spec wording of one constraint line: the k-th (1-based) constraint
renders as `  c<k>: <left> <op> <right>` followed by the line break. -/
def constraintLineSpec (numbered : Nat × LpConstraint) : String :=
  "  c" ++ natRepr numbered.1 ++ ": " ++ format numbered.2.lhs false ++ " " ++
    opTokenSpec numbered.2.op ++ " " ++ format numbered.2.rhs false ++ "\n"

/-- Spec wording of one Bounds line (two-space indentation as in the
spec's model-file template): lower bound present gives
`<lower> <= <name>` with ` <= <upper>` appended when an upper bound also
exists; only an upper bound gives `<name> <= <upper>`; no bounds gives
`<name> free` for Continuous variables and no line for Integer and
Binary variables. -/
def boundLineSpec : LpExpression → String
  | .ConsInt ⟨n, some l, some u⟩ =>
    "  " ++ fmtFloat l ++ " <= " ++ n ++ " <= " ++ fmtFloat u ++ "\n"
  | .ConsInt ⟨n, some l, none⟩ => "  " ++ fmtFloat l ++ " <= " ++ n ++ "\n"
  | .ConsInt ⟨n, none, some u⟩ => "  " ++ n ++ " <= " ++ fmtFloat u ++ "\n"
  | .ConsInt ⟨_, none, none⟩ => ""
  | .ConsCont ⟨n, some l, some u⟩ =>
    "  " ++ fmtFloat l ++ " <= " ++ n ++ " <= " ++ fmtFloat u ++ "\n"
  | .ConsCont ⟨n, some l, none⟩ => "  " ++ fmtFloat l ++ " <= " ++ n ++ "\n"
  | .ConsCont ⟨n, none, some u⟩ => "  " ++ n ++ " <= " ++ fmtFloat u ++ "\n"
  | .ConsCont ⟨n, none, none⟩ => "  " ++ n ++ " free\n"
  | _ => ""

/-- Names of the variables referenced in an expression, used to state
that the renderer itself introduces no grouping characters. -/
def varNames : LpExpression → List String
  | .LitVal _ => []
  | .EmptyExpr => []
  | .AddExpr a b | .SubExpr a b | .MulExpr a b => varNames a ++ varNames b
  | .ConsBin v => [v.name]
  | .ConsInt v => [v.name]
  | .ConsCont v => [v.name]

/-- A character that is neither of the grouping characters `(`, `)` nor
the multiplication star. -/
def cleanChar (c : Char) : Prop := c ≠ '(' ∧ c ≠ ')' ∧ c ≠ '*'

instance (c : Char) : Decidable (cleanChar c) := by
  unfold cleanChar; infer_instance

/-- Continuous variable `x` of the spec's end-to-end scenario. -/
def xVar : LpExpression := .ConsCont ⟨"x", none, none⟩

/-- Continuous variable `y` of the spec's end-to-end scenario. -/
def yVar : LpExpression := .ConsCont ⟨"y", none, none⟩

/-- The spec's end-to-end scenario: Problem named `"p"`, objective
Minimize over `Add(Mul(Literal(2.0), VariableRef(x)), VariableRef(y))`,
one constraint `x + y <= 10`. -/
def p1 : LpProblem :=
  { name := "p", unique_name := "p", objective_type := .Minimize,
    obj_expr := some (.AddExpr (.MulExpr (.LitVal 2) xVar) yVar),
    constraints := [⟨.AddExpr xVar yVar, .LessOrEqual, .LitVal 10⟩] }

/-! ## Helper lemmas -/

theorem clean_empty : ∀ c ∈ ("" : String).data, cleanChar c := by decide

theorem clean_space : ∀ c ∈ (" " : String).data, cleanChar c := by decide

theorem clean_plus : ∀ c ∈ (" + " : String).data, cleanChar c := by decide

theorem clean_minus : ∀ c ∈ (" - " : String).data, cleanChar c := by decide

theorem clean_dash : ∀ c ∈ ("-" : String).data, cleanChar c := by decide

theorem clean_dot : ∀ c ∈ ("." : String).data, cleanChar c := by decide

theorem clean_slash : ∀ c ∈ ("/" : String).data, cleanChar c := by decide

theorem clean_sentinel : ∀ c ∈ ("EmptyExpr!!" : String).data, cleanChar c := by decide

theorem clean_append {s t : String} (hs : ∀ c ∈ s.data, cleanChar c)
    (ht : ∀ c ∈ t.data, cleanChar c) : ∀ c ∈ (s ++ t).data, cleanChar c := by
  intro c hc
  rw [String.data_append] at hc
  rcases List.mem_append.1 hc with h | h
  exacts [hs c h, ht c h]

theorem digitChar10_clean (n : Nat) : cleanChar (digitChar10 n) := by
  unfold digitChar10
  have h : n % 10 < 10 := Nat.mod_lt _ (by decide)
  generalize n % 10 = m at h ⊢
  interval_cases m <;> decide

theorem natDigitsAux_clean : ∀ fuel n : Nat, ∀ c ∈ natDigitsAux fuel n, cleanChar c := by
  intro fuel
  induction fuel with
  | zero => intro n c hc; exact absurd hc (List.not_mem_nil c)
  | succ f ih =>
    intro n c hc
    unfold natDigitsAux at hc
    by_cases h : n < 10
    · rw [if_pos h] at hc
      have := List.mem_singleton.1 hc
      subst this
      exact digitChar10_clean n
    · rw [if_neg h] at hc
      rcases List.mem_append.1 hc with hm | hm
      · exact ih _ c hm
      · have := List.mem_singleton.1 hm
        subst this
        exact digitChar10_clean _

theorem natDigits_clean (n : Nat) : ∀ c ∈ natDigits n, cleanChar c :=
  natDigitsAux_clean (n + 1) n

theorem natRepr_clean (n : Nat) : ∀ c ∈ (natRepr n).data, cleanChar c :=
  natDigits_clean n

theorem intRepr_clean (i : Int) : ∀ c ∈ (intRepr i).data, cleanChar c := by
  unfold intRepr
  by_cases h : i < 0
  · rw [if_pos h]; exact clean_append clean_dash (natRepr_clean _)
  · rw [if_neg h]; exact natRepr_clean _

theorem padLeft_clean (l : List Char) (n : Nat) (h : ∀ c ∈ l, cleanChar c) :
    ∀ c ∈ padLeft l n, cleanChar c := by
  intro c hc
  unfold padLeft at hc
  by_cases hl : l.length < n
  · rw [if_pos hl] at hc
    rcases List.mem_append.1 hc with hm | hm
    · have := List.eq_of_mem_replicate hm
      subst this
      decide
    · exact h c hm
  · rw [if_neg hl] at hc
    exact h c hc

theorem fmtFloatFrac_clean (q : Rat) (e : Nat) : ∀ c ∈ (fmtFloatFrac q e).data, cleanChar c := by
  have hd : ∀ c ∈ fracDigits q e, cleanChar c := padLeft_clean _ _ (natDigits_clean _)
  unfold fmtFloatFrac
  refine clean_append (clean_append (clean_append ?_ ?_) clean_dot) ?_
  · by_cases h : q.num < 0
    · rw [if_pos h]; exact clean_dash
    · rw [if_neg h]; exact clean_empty
  · intro c hc
    exact hd c (List.take_subset _ _ hc)
  · intro c hc
    exact hd c (List.drop_subset _ _ hc)

theorem fmtFloat_clean (q : Rat) : ∀ c ∈ (fmtFloat q).data, cleanChar c := by
  unfold fmtFloat
  rcases hf : (List.range 61).find? (fun k => decide (q.den ∣ 10 ^ k)) with _ | k
  · exact clean_append (clean_append (intRepr_clean _) clean_slash) (natRepr_clean _)
  · rcases k with _ | k
    · exact intRepr_clean _
    · exact fmtFloatFrac_clean q (k + 1)

theorem mem_of_strStartsWith : ∀ pat s : List Char,
    strStartsWith pat s = true → ∀ a ∈ pat, a ∈ s := by
  intro pat
  induction pat with
  | nil => intro s _ a ha; exact absurd ha (List.not_mem_nil a)
  | cons p ps ih =>
    intro s h a ha
    cases s with
    | nil => exact absurd h (by simp [strStartsWith])
    | cons c cs =>
      unfold strStartsWith at h
      rw [Bool.and_eq_true] at h
      rcases h with ⟨h1, h2⟩
      rcases List.mem_cons.1 ha with rfl | hm
      · exact List.mem_cons.2 (Or.inl (of_decide_eq_true h1))
      · exact List.mem_cons.2 (Or.inr (ih cs h2 a hm))

theorem mem_of_strContainsAux (pat : List Char) :
    ∀ hay, strContainsAux pat hay = true → ∀ a ∈ pat, a ∈ hay := by
  intro hay
  induction hay with
  | nil => intro h a ha; exact mem_of_strStartsWith pat [] h a ha
  | cons c cs ih =>
    intro h a ha
    unfold strContainsAux at h
    rw [Bool.or_eq_true] at h
    rcases h with h1 | h2
    · exact mem_of_strStartsWith pat (c :: cs) h1 a ha
    · exact List.mem_cons.2 (Or.inr (ih h2 a ha))

theorem containsStr_eq_false {s pat : String} (a : Char) (ha : a ∈ pat.data)
    (hs : a ∉ s.data) : containsStr s pat = false := by
  rcases h : containsStr s pat
  · rfl
  · exact absurd (mem_of_strContainsAux pat.data s.data h a ha) hs

theorem format_clean : ∀ e : LpExpression,
    (∀ s ∈ varNames e, ∀ c ∈ s.data, cleanChar c) →
    ∀ c ∈ (format e false).data, cleanChar c := by
  intro e
  induction e with
  | LitVal v => intro _; exact fmtFloat_clean v
  | AddExpr a b iha ihb =>
    intro h
    have ha := iha (fun s hs => h s (List.mem_append_left _ hs))
    have hb := ihb (fun s hs => h s (List.mem_append_right _ hs))
    exact clean_append (clean_append (clean_append (clean_append clean_empty ha) clean_plus) hb)
      clean_empty
  | SubExpr a b iha ihb =>
    intro h
    have ha := iha (fun s hs => h s (List.mem_append_left _ hs))
    have hb := ihb (fun s hs => h s (List.mem_append_right _ hs))
    exact clean_append (clean_append (clean_append (clean_append clean_empty ha) clean_minus) hb)
      clean_empty
  | MulExpr a b iha ihb =>
    intro h
    have ha := iha (fun s hs => h s (List.mem_append_left _ hs))
    have hb := ihb (fun s hs => h s (List.mem_append_right _ hs))
    cases a with
    | LitVal v =>
      by_cases h1 : v = 1
      · subst h1
        show ∀ c ∈ (parenL false ++ " " ++ format b false ++ parenR false ++ " ").data, cleanChar c
        exact clean_append
          (clean_append (clean_append (clean_append clean_empty clean_space) hb) clean_empty)
          clean_space
      · by_cases h2 : v = -1
        · subst h2
          have hm1 : format (.MulExpr (.LitVal (-1)) b) false =
              parenL false ++ "-" ++ format b false ++ parenR false ++ " " := by
            simp [format, h1]
          rw [hm1]
          exact clean_append
            (clean_append (clean_append (clean_append clean_empty clean_dash) hb) clean_empty)
            clean_space
        · have hm2 : format (.MulExpr (.LitVal v) b) false =
              parenL false ++ format (.LitVal v) false ++ opMul false ++ format b false ++
                parenR false ++ " " := by
            simp [format, h1, h2]
          rw [hm2]
          exact clean_append
            (clean_append
              (clean_append (clean_append (clean_append clean_empty (fmtFloat_clean v)) clean_space)
                hb)
              clean_empty)
            clean_space
    | AddExpr a1 a2 =>
      exact clean_append
        (clean_append (clean_append (clean_append (clean_append clean_empty ha) clean_space) hb)
          clean_empty)
        clean_space
    | SubExpr a1 a2 =>
      exact clean_append
        (clean_append (clean_append (clean_append (clean_append clean_empty ha) clean_space) hb)
          clean_empty)
        clean_space
    | MulExpr a1 a2 =>
      exact clean_append
        (clean_append (clean_append (clean_append (clean_append clean_empty ha) clean_space) hb)
          clean_empty)
        clean_space
    | ConsBin v =>
      exact clean_append
        (clean_append (clean_append (clean_append (clean_append clean_empty ha) clean_space) hb)
          clean_empty)
        clean_space
    | ConsInt v =>
      exact clean_append
        (clean_append (clean_append (clean_append (clean_append clean_empty ha) clean_space) hb)
          clean_empty)
        clean_space
    | ConsCont v =>
      exact clean_append
        (clean_append (clean_append (clean_append (clean_append clean_empty ha) clean_space) hb)
          clean_empty)
        clean_space
    | EmptyExpr =>
      exact clean_append
        (clean_append (clean_append (clean_append (clean_append clean_empty ha) clean_space) hb)
          clean_empty)
        clean_space
  | ConsBin v =>
    intro h
    exact h v.name (List.mem_singleton.2 rfl)
  | ConsInt v =>
    intro h
    exact h v.name (List.mem_singleton.2 rfl)
  | ConsCont v =>
    intro h
    exact h v.name (List.mem_singleton.2 rfl)
  | EmptyExpr => intro _; exact clean_sentinel

theorem constraint_line_eq (i : Nat) (c : LpConstraint) :
    "  c" ++ natRepr i ++ ": " ++ LpConstraint.to_lp_file_format c ++ "\n" =
      constraintLineSpec (i, c) := by
  rcases c with ⟨lhs, op, rhs⟩
  cases op <;>
    simp only [LpConstraint.to_lp_file_format, constraintLineSpec, opTokenSpec,
      String.append_assoc] <;> rfl

theorem formatConstraintsAux_enumFrom (cs : List LpConstraint) : ∀ i : Nat,
    formatConstraintsAux cs i = strJoin ((List.enumFrom i cs).map constraintLineSpec) := by
  induction cs with
  | nil => intro i; rfl
  | cons c t ih =>
    intro i
    show "  c" ++ natRepr i ++ ": " ++ LpConstraint.to_lp_file_format c ++ "\n" ++
        formatConstraintsAux t (i + 1) = _
    rw [ih (i + 1)]
    show _ = constraintLineSpec (i, c) ++ _
    rw [constraint_line_eq i c]

theorem boundLine_eq_spec (v : LpExpression) : boundLine v = boundLineSpec v := by
  cases v with
  | ConsInt w =>
    rcases w with ⟨n, _ | l, _ | u⟩ <;>
      (simp only [boundLine, boundEmit, boundLineSpec, String.append_assoc,
        String.append_empty]; try rfl)
  | ConsCont w =>
    rcases w with ⟨n, _ | l, _ | u⟩ <;>
      (simp only [boundLine, boundEmit, boundLineSpec, String.append_assoc,
        String.append_empty]; try rfl)
  | LitVal v => rfl
  | AddExpr a b => rfl
  | SubExpr a b => rfl
  | MulExpr a b => rfl
  | ConsBin v => rfl
  | EmptyExpr => rfl

theorem boundsAux_eq (l : List (String × LpExpression)) :
    boundsAux l = strJoin (l.map (fun p => boundLineSpec p.2)) := by
  induction l with
  | nil => rfl
  | cons p t ih =>
    show boundLine p.2 ++ boundsAux t = boundLineSpec p.2 ++ _
    rw [ih, boundLine_eq_spec]

theorem splitOnCharAux_head_isSome (sep : Char) : ∀ (l cur : List Char),
    ((splitOnCharAux sep l cur).head?).isSome = true := by
  intro l
  induction l with
  | nil => intro cur; rfl
  | cons c t ih =>
    intro cur
    unfold splitOnCharAux
    by_cases hc : c = sep
    · rw [if_pos hc]; rfl
    · rw [if_neg hc]; exact ih (c :: cur)

theorem lookup_map_overwrite (t : List (String × Rat)) (k : String) (v : Rat)
    (h : t.any (fun p => p.1 == k) = true) :
    lookupAssoc (t.map (fun p => if p.1 == k then (k, v) else p)) k = some v := by
  induction t with
  | nil => simp at h
  | cons p t ih =>
    cases hp : (p.1 == k) with
    | true => simp [lookupAssoc, hp]
    | false =>
      simp only [List.any_cons, hp, Bool.false_or] at h
      have hh := ih h
      simp [lookupAssoc, hp] at hh ⊢
      exact hh

theorem lookup_append_new (t : List (String × Rat)) (k : String) (v : Rat)
    (h : t.any (fun p => p.1 == k) = false) :
    lookupAssoc (t ++ [(k, v)]) k = some v := by
  induction t with
  | nil => simp [lookupAssoc]
  | cons p t ih =>
    simp only [List.any_cons, Bool.or_eq_false_iff] at h
    simp [lookupAssoc, h.1, ih h.2]

theorem lookup_insertAssoc (m : List (String × Rat)) (k : String) (v : Rat) :
    lookupAssoc (insertAssoc m k v) k = some v := by
  unfold insertAssoc
  by_cases h : m.any (fun p => p.1 == k) = true
  · rw [if_pos h]
    exact lookup_map_overwrite m k v h
  · rw [if_neg h]
    exact lookup_append_new m k v (Bool.not_eq_true _ ▸ h : _)

/-! ## Claim theorems -/

/-- C1 (counterexample): for the spec's end-to-end problem `p1` the
serialized model file does **not** contain the text
`"Minimize\n  obj: 2 x + y"`: the `MulExpr` renderer emits a trailing
space after the right operand, so the objective actually reads
`"2 x  + y"` with two spaces before the plus sign. -/
theorem c1_counterexample :
    containsStr (LpProblem.to_lp_file_format p1) "Minimize\n  obj: 2 x + y" = false := by
  rfl

/-- C1 (amended): for the spec's end-to-end problem `p1` the Subject-To
section consists of exactly the line `"  c1: x + y <= 10\n"`, and the
objective section reads `"Minimize\n  obj: 2 x  + y"` — with two spaces
before the `+` because the multiplication renderer appends a trailing
space. The second conjunct pins the whole serialized file. -/
theorem c1_amended :
    format_constraints_lp_file_block p1 = "  c1: x + y <= 10\n" ∧
    LpProblem.to_lp_file_format p1 =
      "\\ p\n\nMinimize\n  obj: 2 x  + y\n\nSubject To\n  c1: x + y <= 10\n\nBounds\n  x free\n  y free\n\nGenerals\n  \nBinary\n  \nEnd" ∧
    containsStr (LpProblem.to_lp_file_format p1) "  c1: x + y <= 10\n" = true ∧
    containsStr (LpProblem.to_lp_file_format p1) "Minimize\n  obj: 2 x  + y" = true :=
  ⟨rfl, rfl, rfl, rfl⟩

/-- C2 (counterexample): with `X` the variable `x`, rendering
`Mul(Literal(1.0), X)` gives `" x "` — not the same text as rendering
`X` alone — and rendering `Mul(Literal(-1.0), X)` gives `"-x "`, which
is not `'-'` immediately followed by `X`'s rendering alone. -/
theorem c2_counterexample :
    format (.MulExpr (.LitVal 1) (.ConsCont ⟨"x", none, none⟩)) false ≠
      format (.ConsCont ⟨"x", none, none⟩) false ∧
    format (.MulExpr (.LitVal (-1)) (.ConsCont ⟨"x", none, none⟩)) false ≠
      "-" ++ format (.ConsCont ⟨"x", none, none⟩) false := by
  constructor <;> decide

/-- C2 (amended): in the non-parenthesized mode, `Mul(Literal(1.0), X)`
renders as a space, then `X`'s rendering, then a space, and
`Mul(Literal(-1.0), X)` renders as `'-'` immediately followed by `X`'s
rendering and a trailing space. -/
theorem c2_amended (X : LpExpression) :
    format (.MulExpr (.LitVal 1) X) false = " " ++ format X false ++ " " ∧
    format (.MulExpr (.LitVal (-1)) X) false = "-" ++ format X false ++ " " := by
  have h1 : format (.MulExpr (.LitVal 1) X) false =
      parenL false ++ " " ++ format X false ++ parenR false ++ " " := by
    simp [format]
  have hne : ¬((-1 : Rat) = 1) := by norm_num
  have h2 : format (.MulExpr (.LitVal (-1)) X) false =
      parenL false ++ "-" ++ format X false ++ parenR false ++ " " := by
    simp [format, hne]
  constructor
  · rw [h1]
    simp only [parenL, parenR, if_neg (by decide : ¬(false = true)), String.append_empty]
    rfl
  · rw [h2]
    simp only [parenL, parenR, if_neg (by decide : ¬(false = true)), String.append_empty]
    rfl

/-- C4 (code behaviour at the failing input): on the empty solution
file the parser returns `Ok` with an empty mapping and status `Optimal`
instead of the format error the spec mandates: Rust's
`"".split(" ").next()` is `Some("")` (second conjunct), so the
`else`-branch guarding the missing header is unreachable. -/
theorem c4_code_behavior :
    read_specific_solution "" = .ok { status := .Optimal, results := [] } ∧
    (splitOnChar ' ' (headerSplit "".data).1).head? = some [] :=
  ⟨rfl, rfl⟩

/-- C3 (counterexample): on a successful run whose captured standard
output contains neither the optimal phrase nor the infeasible phrase,
the returned solution carries status `SubOptimal`, not the parser's
default `Optimal` the claim states. -/
theorem c3_counterexample :
    (process_output p1 ⟨true, "exit status: 0", "", ""⟩ "h\n").1 =
      .ok { status := .SubOptimal, results := [] } ∧
    Status.SubOptimal ≠ Status.Optimal :=
  ⟨rfl, by decide⟩

/-- C3 (amended): on a successful solver run whose solution file parses,
the adapter returns the parser's mapping unchanged, with status
`Optimal` when the stdout contains `"Optimal objective"`, `Infeasible`
when it contains only `"infesible"`, and the adapter's preset
`SubOptimal` — not the parser's default `Optimal` — when neither phrase
occurs. -/
theorem c3_amended (prob : LpProblem) (r : ProcOutput) (content : String)
    (sol : Solution) (hs : r.status_success = true)
    (hp : read_specific_solution content = .ok sol) :
    (containsStr r.stdout "Optimal objective" = true →
      (process_output prob r content).1 = .ok { sol with status := .Optimal }) ∧
    (containsStr r.stdout "Optimal objective" = false →
      containsStr r.stdout "infesible" = true →
      (process_output prob r content).1 = .ok { sol with status := .Infeasible }) ∧
    (containsStr r.stdout "Optimal objective" = false →
      containsStr r.stdout "infesible" = false →
      (process_output prob r content).1 = .ok { sol with status := .SubOptimal }) := by
  refine ⟨fun h1 => ?_, fun h1 h2 => ?_, fun h1 h2 => ?_⟩
  · simp [process_output, hs, hp, h1]
  · simp [process_output, hs, hp, h1, h2]
  · simp [process_output, hs, hp, h1, h2]

/-- C3 (witness): concrete successful run whose stdout contains the
optimal phrase; the parsed empty solution is returned with status
`Optimal`. -/
theorem c3_witness :
    (process_output p1 ⟨true, "exit status: 0", "Optimal objective  3e+00", ""⟩ "h\n").1 =
      .ok { status := .Optimal, results := [] } :=
  (c3_amended p1 ⟨true, "exit status: 0", "Optimal objective  3e+00", ""⟩ "h\n"
    { status := .Optimal, results := [] } rfl rfl).1 rfl

/-- C5: for a non-comment body line, a whitespace split into other than
two tokens aborts the parse with the format error, and a two-token split
either inserts the parsed pair and continues, or aborts with the
numeric-parse error when the second token does not parse; the error is
returned regardless of the remaining lines, so no partial result is
produced. -/
theorem c5_body_line (l : String) (ls : List String) (acc : List (String × Rat))
    (hc : ¬(l.data.head? = some '#')) :
    ((splitWS l.data).length ≠ 2 →
      parseLines (l :: ls) acc = .error "Incorrect solution format") ∧
    (∀ name val : List Char, splitWS l.data = [name, val] →
      (∀ n : Rat, parseF32 (String.mk val) = some n →
        parseLines (l :: ls) acc = parseLines ls (insertAssoc acc (String.mk name) n)) ∧
      (parseF32 (String.mk val) = none →
        parseLines (l :: ls) acc = .error "invalid float literal")) := by
  have hstep : parseLines (l :: ls) acc =
      match splitWS l.data with
      | [name, val] =>
        match parseF32 (String.mk val) with
        | some n => parseLines ls (insertAssoc acc (String.mk name) n)
        | none => .error "invalid float literal"
      | _ => .error "Incorrect solution format" := by
    simp only [parseLines, if_neg hc]
  constructor
  · intro hlen
    rw [hstep]
    rcases hsp : splitWS l.data with _ | ⟨a, _ | ⟨b, _ | ⟨c, tl⟩⟩⟩
    · rfl
    · rfl
    · rw [hsp] at hlen
      exact absurd rfl hlen
    · rfl
  · intro name val hsp
    rw [hstep, hsp]
    constructor
    · intro n hn
      show (match parseF32 (String.mk val) with
        | some n => parseLines ls (insertAssoc acc (String.mk name) n)
        | none => (.error "invalid float literal" : Except String (List (String × Rat)))) =
          parseLines ls (insertAssoc acc (String.mk name) n)
      rw [hn]
    · intro hn
      show (match parseF32 (String.mk val) with
        | some n => parseLines ls (insertAssoc acc (String.mk name) n)
        | none => (.error "invalid float literal" : Except String (List (String × Rat)))) =
          (.error "invalid float literal" : Except String (List (String × Rat)))
      rw [hn]

/-- C5 (witness): the spec's example lines — three tokens give the
format error, an unparseable value gives the numeric-parse error, and a
well-formed line inserts its pair. -/
theorem c5_witness :
    parseLines ["x1 1.5 extra"] [] = .error "Incorrect solution format" ∧
    parseLines ["x1 notanumber"] [] = .error "invalid float literal" ∧
    parseLines ["x1 1.5"] [] = .ok [("x1", mkRat 3 2)] := by
  refine ⟨?_, ?_, ?_⟩
  · exact (c5_body_line "x1 1.5 extra" [] [] (by decide)).1 (by decide)
  · exact ((c5_body_line "x1 notanumber" [] [] (by decide)).2
      "x1".data "notanumber".data (by decide)).2 (by decide)
  · exact (((c5_body_line "x1 1.5" [] [] (by decide)).2
      "x1".data "1.5".data (by decide)).1 (mkRat 3 2) (by decide)).trans (by rfl)

/-- C6: the parser (a) maps `"header\nx1 1.5\nx2 2.0\n"` to the mapping
{x1 ↦ 1.5, x2 ↦ 2.0} with status `Optimal`; (b) returns status
`Optimal` with the accumulated mapping whenever the body lines parse to
completion; (c) skips lines beginning with `'#'` without touching the
mapping; and (d) a later insert for an existing name overwrites the
earlier value (last-write-wins), not an error. -/
theorem c6_read_solution (input : String) (m : List (String × Rat)) :
    (read_specific_solution "header\nx1 1.5\nx2 2.0\n" =
      .ok { status := .Optimal, results := [("x1", mkRat 3 2), ("x2", mkRat 2 1)] }) ∧
    (parseLines (rustLines (headerSplit input.data).2) [] = .ok m →
      read_specific_solution input = .ok { status := .Optimal, results := m }) ∧
    (∀ (l : String) (ls : List String) (acc : List (String × Rat)),
      l.data.head? = some '#' → parseLines (l :: ls) acc = parseLines ls acc) ∧
    (∀ (mm : List (String × Rat)) (k : String) (v : Rat),
      lookupAssoc (insertAssoc mm k v) k = some v) := by
  refine ⟨by rfl, fun hp => ?_, fun l ls acc h => ?_, fun mm k v => ?_⟩
  · unfold read_specific_solution
    rw [if_pos, hp]
    exact splitOnCharAux_head_isSome ' ' _ []
  · simp only [parseLines, if_pos h]
  · exact lookup_insertAssoc mm k v

/-- C6 (witness): concrete instances of parts (b), (c) and (d) of
`c6_read_solution`. -/
theorem c6_witness :
    read_specific_solution "h\nx 1\n" =
      .ok { status := .Optimal, results := [("x", mkRat 1 1)] } ∧
    parseLines ["# gurobi version", "x 1"] [] = parseLines ["x 1"] [] ∧
    lookupAssoc (insertAssoc [("x", mkRat 1 1)] "x" (mkRat 2 1)) "x" = some (mkRat 2 1) := by
  refine ⟨?_, ?_, ?_⟩
  · exact (c6_read_solution "h\nx 1\n" [("x", mkRat 1 1)]).2.1 (by rfl)
  · exact (c6_read_solution "" []).2.2.1 "# gurobi version" ["x 1"] [] (by decide)
  · exact (c6_read_solution "" []).2.2.2 [("x", mkRat 1 1)] "x" (mkRat 2 1)

/-- C7: the Constraints section of every problem is exactly the
concatenation, over the 1-based enumeration of the constraints in
insertion order, of the lines `  c<k>: <left> <op> <right>` (with the
line break), where the operator tokens are `>=`, `<=` and `=`. -/
theorem c7_constraint_lines (prob : LpProblem) :
    format_constraints_lp_file_block prob =
      strJoin ((List.enumFrom 1 prob.constraints).map constraintLineSpec) ∧
    opTokenSpec .GreaterOrEqual = ">=" ∧
    opTokenSpec .LessOrEqual = "<=" ∧
    opTokenSpec .Equal = "=" :=
  ⟨formatConstraintsAux_enumFrom prob.constraints 1, rfl, rfl, rfl⟩

/-- C8: the Bounds section is exactly the concatenation, over the
problem's variable set in order, of the spec-worded bound lines: lower
bound present gives `<lower> <= <name>` with ` <= <upper>` appended when
an upper bound exists; only an upper bound gives `<name> <= <upper>`;
no bounds gives `<name> free` for Continuous variables and no line for
Integer (and Binary) variables. -/
theorem c8_bounds_section (prob : LpProblem) :
    format_bounds_lp_file_block prob =
      strJoin (prob.variables.map (fun p => boundLineSpec p.2)) :=
  boundsAux_eq prob.variables

/-- C9: when the external process exits with non-zero status,
`process_output` (whose result `run` returns) yields the error carrying
the process's status string and writes the captured standard error and
standard output to `<unique_name>.stderr` and `<unique_name>.stdout`;
no Solution is produced. -/
theorem c9_nonzero_exit (problem : LpProblem) (r : ProcOutput) (content : String)
    (h : r.status_success = false) :
    process_output problem r content =
      (.error r.status_display,
       [(problem.unique_name ++ ".stderr", r.stderr),
        (problem.unique_name ++ ".stdout", r.stdout)]) := by
  simp [process_output, h]

/-- C9 (witness): concrete failing run of the end-to-end problem. -/
theorem c9_witness :
    process_output p1 ⟨false, "exit status: 1", "solver stdout", "solver stderr"⟩ "" =
      (.error "exit status: 1",
       [("p.stderr", "solver stderr"), ("p.stdout", "solver stdout")]) := by
  rw [c9_nonzero_exit p1 ⟨false, "exit status: 1", "solver stdout", "solver stderr"⟩ "" rfl]
  rfl

/-- C10: the public renderer `LpExpression::format` invokes the internal
renderer with the parenthesized flag `false`, and in that mode the
renderer itself introduces no grouping characters: whenever the names of
the variables referenced by the expression avoid `(`, `)` and `*`, the
rendered text contains no `(`, no `)`, and no `" * "` separator. -/
theorem c10_no_grouping (e : LpExpression)
    (h : ∀ s ∈ varNames e, ∀ c ∈ s.data, cleanChar c) :
    LpExpression.to_lp_file_format e = format e false ∧
    (∀ c ∈ (LpExpression.to_lp_file_format e).data, c ≠ '(' ∧ c ≠ ')') ∧
    containsStr (LpExpression.to_lp_file_format e) " * " = false := by
  refine ⟨rfl, fun c hc => ?_, ?_⟩
  · have hcl := format_clean e h c hc
    exact ⟨hcl.1, hcl.2.1⟩
  · exact containsStr_eq_false '*' (by decide)
      (fun hm => (format_clean e h '*' hm).2.2 rfl)

/-- C10 (witness): the end-to-end objective expression renders with no
grouping characters. -/
theorem c10_witness :
    LpExpression.to_lp_file_format (.AddExpr (.MulExpr (.LitVal 2) xVar) yVar) =
      format (.AddExpr (.MulExpr (.LitVal 2) xVar) yVar) false ∧
    (∀ c ∈ (LpExpression.to_lp_file_format
        (.AddExpr (.MulExpr (.LitVal 2) xVar) yVar)).data, c ≠ '(' ∧ c ≠ ')') ∧
    containsStr (LpExpression.to_lp_file_format
        (.AddExpr (.MulExpr (.LitVal 2) xVar) yVar)) " * " = false :=
  c10_no_grouping (.AddExpr (.MulExpr (.LitVal 2) xVar) yVar) (by decide)

end RustLp
